import Mathlib

set_option maxRecDepth 4000
set_option linter.unusedVariables false

/-!
Shallow embedding of the execution core in internal/exec/exec.go of
qdentity/graphql-go: selection merging and narrowing, field execution,
type-directed serialization, error-path construction and the panic and
cancellation model.  Go panics are modelled by an explicit payload that
propagates until a recover boundary; the shared append-only error list is
modelled by the list of errors each call appends; buffers are modelled by
the bytes each call writes.  The concurrent branches of the source compute
every task's bytes into its own buffer and concatenate in index order, so
their observable byte output is deterministic and is modelled directly;
the spawn order stands in for the nondeterministic append order of the
shared error list.  Mutual recursion is fuel-indexed so that every
definition reduces in the kernel.
-/

namespace Gql

/-- A path element as stored in pathSegment.value: a field name (string)
or a list index (int). -/
inductive PathElem where
  | fieldName (s : String)
  | index (i : Nat)
deriving DecidableEq

/-- Reverse-linked error-location chain (source type pathSegment). -/
inductive PathSeg where
  | nil
  | cons (parent : PathSeg) (value : PathElem)
deriving DecidableEq

/-- Source pathSegment.toSlice: materialize the chain root-first. -/
def PathSeg.toSlice : PathSeg → List PathElem
  | .nil => []
  | .cons parent value => parent.toSlice ++ [value]

/-- Modelled from the spec: the errors package is not under src/.  A
QueryError carries a message, a path, an optional wrapped original cause
(modelled by the cause's error string) and an optional opaque panic
payload (spec section 3). -/
structure QueryError where
  message : String
  path : List PathElem
  originalError : Option String
  panicValue : Option String
deriving DecidableEq

/-- Modelled from the spec: errors.Errorf builds a QueryError holding just
the formatted message. -/
def Errorf (message : String) : QueryError :=
  { message := message, path := [], originalError := none, panicValue := none }

/-- Source panicError: the generic error produced at a recover boundary,
carrying the raw panic payload for diagnostics only. -/
def panicError (value : String) : QueryError :=
  { Errorf "internal server error" with panicValue := some value }

/-- A Go context, modelled by the result of its Err method: none while
live, some cause once cancelled.  The source reads it cooperatively; the
noop tracer derives the same context. -/
structure Ctx where
  err : Option String
deriving DecidableEq

/-- A runtime resolver value (a reflect.Value in the source).  An obj
carries its capability table: calling method i yields the triple
(out[0], out[1].Bool(), declared error); narrowing predicates read the
Bool, resolver methods read out[0] and the error slot.  A ptr is a Go
pointer (none is nil); a slice is a Go slice; a scalarVal is an opaque
scalar together with its json.Marshal encoding (none when encoding
fails); a strVal is a Go string (typename fixed results, enum values). -/
inductive RValue where
  | obj (methods : List (RValue × Bool × Option String))
  | ptr (v : Option RValue)
  | slice (elems : List RValue)
  | scalarVal (enc : Option String)
  | strVal (s : String)

/-- Source resolver.Method(i).Call: look the method up in the capability
table and return its results; a failure is a reflect panic. -/
def methodCall : RValue → Nat → Except String (RValue × Bool × Option String)
  | .obj methods, i =>
      match methods.get? i with
      | some m => .ok m
      | none => .error "reflect: method index out of range"
  | .ptr (some v), i => methodCall v i
  | _, _ => .error "reflect: invalid method receiver"

/-- Source resolver.Kind() == reflect.Ptr && resolver.IsNil(). -/
def RValue.isNilPtr : RValue → Bool
  | .ptr none => true
  | _ => false

/-- Source resolver.IsNil(): defined on nilable kinds, a reflect panic on
any other kind. -/
def RValue.isNil : RValue → Except String Bool
  | .ptr v => .ok v.isNone
  | .slice _ => .ok false
  | _ => .error "reflect: call of reflect.Value.IsNil on non-nilable value"

/-- Source resolver.Elem(): dereference a pointer, a reflect panic
otherwise. -/
def RValue.elemOf : RValue → Except String RValue
  | .ptr (some v) => .ok v
  | _ => .error "reflect: call of reflect.Value.Elem on invalid value"

/-- JSON string quoting.  Values quoted in this development (type names,
enum names) contain no characters that need escaping. -/
def jsonQuote (s : String) : String := "\"" ++ s ++ "\""

mutual

/-- Source json.Marshal on the value a scalar resolver returned: scalars
carry their encoding, a nil pointer encodes as the null token, marshalling
follows pointers, strings are quoted, slices and structs encode
structurally. -/
def RValue.jsonMarshal : RValue → Option String
  | .scalarVal enc => enc
  | .ptr none => some "null"
  | .ptr (some v) => v.jsonMarshal
  | .strVal s => some (jsonQuote s)
  | .slice es =>
      match jsonMarshalList es with
      | some parts => some ("[" ++ String.intercalate "," parts ++ "]")
      | none => none
  | .obj _ => some "\x7b\x7d"

/-- Encode every element of a slice, failing if any element fails. -/
def jsonMarshalList : List RValue → Option (List String)
  | [] => some []
  | v :: rest =>
      match v.jsonMarshal, jsonMarshalList rest with
      | some s, some ss => some (s :: ss)
      | _, _ => none

end

/-- Source resolver.String(), used for enum output; enum resolver values
are string-kinded. -/
def RValue.goString : RValue → String
  | .strVal s => s
  | _ => ""

/-- The closed type descriptor variant (common.Type in the source):
Object, Interface, Union, List, NonNull, Scalar, Enum. -/
inductive GType where
  | object (name : String)
  | iface (name : String)
  | union (name : String)
  | list (ofType : GType)
  | nonNull (ofType : GType)
  | scalar (name : String)
  | enum (name : String)
deriving DecidableEq

/-- Source unwrapNonNull: strip one NonNull wrapper, reporting whether one
was present. -/
def unwrapNonNull : GType → GType × Bool
  | .nonNull t => (t, true)
  | t => (t, false)

/-- Display name of a type, as formatted by the %q verb in the source's
non-null panic message. -/
def GType.displayName : GType → String
  | .object n => n
  | .iface n => n
  | .union n => n
  | .scalar n => n
  | .enum n => n
  | .list t => "[" ++ t.displayName ++ "]"
  | .nonNull t => t.displayName ++ "!"

/-- Modelled from the spec: the per-field static metadata produced by the
external selection resolver (the resolvable and selected packages are not
under src/): field name, type, method index, whether the method takes the
context, packed arguments or a sub-field descriptor, whether it returns an
error, whether it is asynchronous-eligible, and an optional fixed
pre-computed result that bypasses invocation. -/
structure SchemaFieldInfo where
  name : String
  typ : GType
  methodIndex : Nat
  hasContext : Bool
  hasArgs : Bool
  hasSelected : Bool
  hasError : Bool
  async : Bool
  fixedResult : Option RValue

/-- Modelled from the spec: the closed SelectionNode variant — a
field selection with alias, metadata and nested selections; a typename
meta-selection carrying the static type name and the named narrowing
variants (name, predicate method index); a type-assertion selection with
its predicate method index and nested selections. -/
inductive Selection where
  | field (al : String) (info : SchemaFieldInfo) (sels : List Selection)
  | typename (al : String) (name : String) (assertions : List (String × Nat))
  | assertion (methodIndex : Nat) (sels : List Selection)

/-- Modelled from the spec: resolvable.MetaFieldTypename, the static
descriptor of the typename meta field — a fixed-result field of non-null
String scalar type. -/
def MetaFieldTypename : SchemaFieldInfo :=
  { name := "__typename", typ := .nonNull (.scalar "String"), methodIndex := 0,
    hasContext := false, hasArgs := false, hasSelected := false, hasError := false,
    async := false, fixedResult := none }

/-- The SchemaField the source builds for a typename meta-selection:
MetaFieldTypename with the computed name as fixed result. -/
def typenameInfo (tn : String) : SchemaFieldInfo :=
  { MetaFieldTypename with fixedResult := some (.strVal tn) }

mutual

/-- Modelled from the spec: whether one selection, recursively through
nested selections and type assertions, is marked asynchronous. -/
def hasAsyncSel : Selection → Bool
  | .field _ info ss => info.async || HasAsyncSel ss
  | .typename _ _ _ => false
  | .assertion _ ss => HasAsyncSel ss

/-- Modelled from the spec: selected.HasAsyncSel reports whether any field
selection in the list, recursively, is marked asynchronous (spec sections
4.4 and 4.6). -/
def HasAsyncSel : List Selection → Bool
  | [] => false
  | s :: rest => hasAsyncSel s || HasAsyncSel rest

end

/-- Source fieldToExec: a merged execution-ready field.  registered
records whether the entry was put in the fieldByAlias merge table (field
selections are; typename entries are appended without registering). -/
structure FieldToExec where
  al : String
  info : SchemaFieldInfo
  sels : List Selection
  resolver : RValue
  registered : Bool

/-- Whether the merge table already holds an entry for this alias: the
source map fieldByAlias holds exactly the registered entries. -/
def regSeen : List FieldToExec → String → Bool
  | [], _ => false
  | f :: rest, al => (f.registered && f.al == al) || regSeen rest al

/-- Source field.sels = append(field.sels, sel.Sels...) on the table entry
for this alias: extend the sels of the unique registered entry. -/
def addSelsTo (fields : List FieldToExec) (al : String) (extra : List Selection) :
    List FieldToExec :=
  match fields with
  | [] => []
  | f :: rest =>
      if f.registered && f.al == al then
        { f with sels := f.sels ++ extra } :: rest
      else
        f :: addSelsTo rest al extra

/-- Source typeOf helper loop: return the name of the first variant whose
predicate succeeds, or the empty string when none does.  Go iterates the
TypeAssertions map in unspecified order; the model iterates list order. -/
def firstAssertion : List (String × Nat) → RValue → Except String String
  | [], _ => .ok ""
  | (n, mi) :: rest, r =>
      match methodCall r mi with
      | .error p => .error p
      | .ok out => if out.2.1 then .ok n else firstAssertion rest r

/-- Source typeOf: the static name when the type has no narrowing
variants, otherwise the first variant whose predicate succeeds. -/
def typeOf (tfName : String) (assertions : List (String × Nat)) (r : RValue) :
    Except String String :=
  if assertions.isEmpty then .ok tfName
  else firstAssertion assertions r

mutual

/-- One iteration of the source collectFieldsToResolve loop: handle one
selection, updating the accumulated output list and merge table. -/
def collectOne (sel : Selection) (resolver : RValue)
    (fields : List FieldToExec) : Except String (List FieldToExec) :=
  match sel with
  | .field al info ss =>
      if regSeen fields al then .ok (addSelsTo fields al ss)
      else .ok (fields ++ [⟨al, info, ss, resolver, true⟩])
  | .typename al name assertions =>
      match typeOf name assertions resolver with
      | .error p => .error p
      | .ok tn => .ok (fields ++ [⟨al, typenameInfo tn, [], resolver, false⟩])
  | .assertion mi ss =>
      match methodCall resolver mi with
      | .error p => .error p
      | .ok out =>
          if out.2.1 then collectFieldsToResolve ss out.1 fields
          else .ok fields

/-- Source collectFieldsToResolve: merge a selection list into the
accumulated output list and merge table (the registered entries), applying
interface/union narrowing.  A reflect failure propagates as a panic. -/
def collectFieldsToResolve (sels : List Selection) (resolver : RValue)
    (fields : List FieldToExec) : Except String (List FieldToExec) :=
  match sels with
  | [] => .ok fields
  | s :: rest =>
      match collectOne s resolver fields with
      | .error p => .error p
      | .ok fields' => collectFieldsToResolve rest resolver fields'

end

/-- The observable behaviour of one execution step: the bytes it wrote to
its buffer, the errors it appended to the shared list, and the panic
payload escaping it (none when it returned normally).  Out-of-fuel is
reported as a distinguished panic payload that no source path produces. -/
structure ERes where
  out : String
  errs : List QueryError
  pan : Option String
deriving DecidableEq

/-- The distinguished out-of-fuel marker of the fuel-indexed model. -/
def oofPanic : String := "model: execution fuel exhausted"

/-- Source handlePanic at a goroutine boundary: a panic payload is logged
and converted into the generic QueryError appended to the shared list; a
normal return passes through. -/
def recoverTask (r : ERes) : ERes :=
  match r.pan with
  | some p => { out := r.out, errs := r.errs ++ [panicError p], pan := none }
  | none => r

/-- Comma separation, continuation part: a comma before every entry. -/
def commaJoinRest : List String → String
  | [] => ""
  | s :: rest => "," ++ s ++ commaJoinRest rest

/-- Comma separation as written by the source loops: a comma before every
entry but the first. -/
def commaJoin : List String → String
  | [] => ""
  | s :: rest => s ++ commaJoinRest rest

mutual

/-- Source execSelections: merge the selections, then execute every merged
field — concurrently when allowed and some selection is asynchronous
(each field in its own task with its own buffer and recover boundary),
serially otherwise (fields write the shared buffer in order and a panic
propagates) — and wrap the output in braces. -/
def execSelections (fuel : Nat) (ctx : Ctx) (sels : List Selection)
    (path : PathSeg) (resolver : RValue) (serially : Bool) : ERes :=
  match fuel with
  | 0 => ⟨"", [], some oofPanic⟩
  | Nat.succ n =>
    match collectFieldsToResolve sels resolver [] with
    | .error p => ⟨"", [], some p⟩
    | .ok fields =>
      if !serially && HasAsyncSel sels then
        let rs := (asyncExecFields n ctx path fields).map
          (fun ar => (ar.1, recoverTask ar.2))
        ⟨"\x7b" ++ commaJoin (rs.map (fun ar => jsonQuote ar.1 ++ ":" ++ ar.2.out)) ++ "\x7d",
         (rs.map (fun ar => ar.2.errs)).flatten, none⟩
      else
        let r := syncFields n ctx path fields true
        match r.pan with
        | some p => ⟨"\x7b" ++ r.out, r.errs, some p⟩
        | none => ⟨"\x7b" ++ r.out ++ "\x7d", r.errs, none⟩

/-- The concurrent field loop of execSelections: one task per merged
field, each writing a fresh buffer; results are paired with the alias for
assembly in merged order.  The recover boundary is applied by the
assembling caller. -/
def asyncExecFields (fuel : Nat) (ctx : Ctx) (path : PathSeg) :
    List FieldToExec → List (String × ERes)
  | [] => []
  | f :: rest =>
    match fuel with
    | 0 => [(f.al, ⟨"", [], some oofPanic⟩)]
    | Nat.succ n =>
      (f.al, execFieldSelection n ctx f (.cons path (.fieldName f.al)) true) ::
        asyncExecFields n ctx path rest

/-- The serial field loop of execSelections: write the quoted alias and
colon, execute the field into the shared buffer, and continue with the
next field; a panic escaping a field aborts the loop and propagates with
the bytes written so far. -/
def syncFields (fuel : Nat) (ctx : Ctx) (path : PathSeg) :
    List FieldToExec → Bool → ERes
  | [], _ => ⟨"", [], none⟩
  | f :: rest, first =>
    match fuel with
    | 0 => ⟨"", [], some oofPanic⟩
    | Nat.succ n =>
      let header := (if first then "" else ",") ++ jsonQuote f.al ++ ":"
      let r := execFieldSelection n ctx f (.cons path (.fieldName f.al)) false
      match r.pan with
      | some p => ⟨header ++ r.out, r.errs, some p⟩
      | none =>
        let rr := syncFields n ctx path rest false
        ⟨header ++ r.out ++ rr.out, r.errs ++ rr.errs, rr.pan⟩

/-- Source execFieldSelection: use the fixed result when present;
otherwise check the (trace-derived) context and fail without invoking the
resolver if it is cancelled; otherwise invoke the resolver method.  The
invocation phase runs under a local recover that attaches the current
path.  A resolver failure or a cancellation appends exactly one error and
writes the literal null token, skipping serialization; on success the
result is serialized.  Permit acquisition and the trace span have no
observable effect in this model; the noop tracer derives the same
context. -/
def execFieldSelection (fuel : Nat) (ctx : Ctx) (f : FieldToExec)
    (path : PathSeg) (applyLimiter : Bool) : ERes :=
  match fuel with
  | 0 => ⟨"", [], some oofPanic⟩
  | Nat.succ n =>
    let step : Except QueryError RValue :=
      match f.info.fixedResult with
      | some v => .ok v
      | none =>
        match ctx.err with
        | some ce => .error (Errorf ce)
        | none =>
          match methodCall f.resolver f.info.methodIndex with
          | .error p => .error { panicError p with path := path.toSlice }
          | .ok callOut =>
            match f.info.hasError, callOut.2.2 with
            | true, some resolverErr =>
                .error { message := resolverErr, path := path.toSlice,
                         originalError := some resolverErr, panicValue := none }
            | _, _ => .ok callOut.1
    match step with
    | .error e => ⟨"null", [e], none⟩
    | .ok v => execSelectionSet n ctx f.sels f.info.typ path v

/-- Source execSelectionSet, first half: strip a NonNull wrapper; for
composite types a nil pointer is either a non-null violation (panic) or
the null token, and otherwise execution recurses one level deeper; for the
remaining types a nullable absent value is the null token and a nullable
present value is dereferenced before the leaf switch. -/
def execSelectionSet (fuel : Nat) (ctx : Ctx) (sels : List Selection)
    (typ : GType) (path : PathSeg) (resolver : RValue) : ERes :=
  match fuel with
  | 0 => ⟨"", [], some oofPanic⟩
  | Nat.succ n =>
    let tb := unwrapNonNull typ
    match tb.1 with
    | .object _ | .iface _ | .union _ =>
      if resolver.isNilPtr then
        if tb.2 then
          ⟨"", [], some ("got nil for non-null " ++ jsonQuote tb.1.displayName)⟩
        else ⟨"null", [], none⟩
      else execSelections n ctx sels path resolver false
    | t =>
      if tb.2 then execBareType n ctx sels t path resolver
      else
        match resolver.isNil with
        | .error p => ⟨"", [], some p⟩
        | .ok true => ⟨"null", [], none⟩
        | .ok false =>
          match resolver.elemOf with
          | .error p => ⟨"", [], some p⟩
          | .ok inner => execBareType n ctx sels t path inner

/-- Source execSelectionSet, leaf switch: a list serializes one entry per
element in index order — concurrently (one task and buffer per element,
with its own recover boundary) when some nested selection is
asynchronous, sequentially otherwise; a scalar is json-encoded (an
encoding failure is a panic); an enum is the quoted string value; a
composite type cannot reach this switch. -/
def execBareType (fuel : Nat) (ctx : Ctx) (sels : List Selection)
    (t : GType) (path : PathSeg) (resolver : RValue) : ERes :=
  match fuel with
  | 0 => ⟨"", [], some oofPanic⟩
  | Nat.succ n =>
    match t with
    | .list ofType =>
      match resolver with
      | .slice es =>
        if HasAsyncSel sels then
          let rs := (asyncElems n ctx sels ofType path es 0).map recoverTask
          ⟨"[" ++ commaJoin (rs.map ERes.out) ++ "]", (rs.map ERes.errs).flatten, none⟩
        else
          let r := seqElems n ctx sels ofType path es 0 true
          match r.pan with
          | some p => ⟨"[" ++ r.out, r.errs, some p⟩
          | none => ⟨"[" ++ r.out ++ "]", r.errs, none⟩
      | _ => ⟨"", [], some "reflect: call of reflect.Value.Len on invalid value"⟩
    | .scalar _ =>
      match resolver.jsonMarshal with
      | some data => ⟨data, [], none⟩
      | none => ⟨"", [], some "could not marshal value"⟩
    | .enum _ => ⟨jsonQuote resolver.goString, [], none⟩
    | _ => ⟨"", [], some "unreachable"⟩

/-- The concurrent element loop of the list case: one task per element at
its index path, each writing a fresh buffer.  The recover boundary is
applied by the assembling caller. -/
def asyncElems (fuel : Nat) (ctx : Ctx) (sels : List Selection)
    (ofType : GType) (path : PathSeg) : List RValue → Nat → List ERes
  | [], _ => []
  | e :: rest, i =>
    match fuel with
    | 0 => [⟨"", [], some oofPanic⟩]
    | Nat.succ n =>
      execSelectionSet n ctx sels ofType (.cons path (.index i)) e ::
        asyncElems n ctx sels ofType path rest (i + 1)

/-- The sequential element loop of the list case: comma, then the element
at its index path, into the shared buffer; a panic escaping an element
aborts the loop and propagates with the bytes written so far. -/
def seqElems (fuel : Nat) (ctx : Ctx) (sels : List Selection)
    (ofType : GType) (path : PathSeg) : List RValue → Nat → Bool → ERes
  | [], _, _ => ⟨"", [], none⟩
  | e :: rest, i, first =>
    match fuel with
    | 0 => ⟨"", [], some oofPanic⟩
    | Nat.succ n =>
      let r := execSelectionSet n ctx sels ofType (.cons path (.index i)) e
      match r.pan with
      | some p => ⟨(if first then "" else ",") ++ r.out, r.errs, some p⟩
      | none =>
        let rr := seqElems n ctx sels ofType path rest (i + 1) false
        ⟨(if first then "" else ",") ++ r.out ++ rr.out, r.errs ++ rr.errs, rr.pan⟩

end

/-- The operation kind: mutation roots execute serially. -/
inductive OpType where
  | query
  | mutation
  | subscription
deriving DecidableEq, BEq

/-- Modelled from the spec: the parsed operation together with the root
selection set that the external selection resolver (ApplyOperation)
produces for it. -/
structure Operation where
  opType : OpType
  sels : List Selection

/-- The resolvable schema, reduced to the root resolver object the
executor dispatches on. -/
structure Schema where
  resolver : RValue

/-- Source Execute: run the tree walk under the top-level recover
boundary (a panic is logged and converted into one generic QueryError
appended after the walk's errors); then, if the context was cancelled,
discard all produced bytes and all collected errors and return a single
QueryError wrapping the cancellation cause; otherwise return the produced
bytes and the collected errors. -/
def Execute (fuel : Nat) (ctx : Ctx) (s : Schema) (op : Operation) :
    String × List QueryError :=
  let walk := execSelections fuel ctx op.sels .nil s.resolver
    (op.opType == OpType.mutation)
  let errsAll :=
    match walk.pan with
    | some p => walk.errs ++ [panicError p]
    | none => walk.errs
  match ctx.err with
  | some ce => ("", [{ Errorf ce with originalError := some ce }])
  | none => (walk.out, errsAll)

/-- Strictly sequential serialization of a list's inputs: the
non-concurrent branch of the source's list case, exposed for the
refinement comparison of the concurrent branch against it. -/
def seqListSerialize (fuel : Nat) (ctx : Ctx) (sels : List Selection)
    (ofType : GType) (path : PathSeg) (es : List RValue) : ERes :=
  let r := seqElems fuel ctx sels ofType path es 0 true
  match r.pan with
  | some p => ⟨"[" ++ r.out, r.errs, some p⟩
  | none => ⟨"[" ++ r.out ++ "]", r.errs, none⟩

/-- One entry-producing occurrence in the flattened traversal of a
selection list: a field selection occurrence, carried together with the
resolver current at its point (narrowed through the passing type
assertions above it), or a typename meta-selection with its computed
name. -/
inductive Occ where
  | fieldOcc (al : String) (info : SchemaFieldInfo) (ss : List Selection)
      (resolver : RValue)
  | typenameOcc (al : String) (tn : String) (resolver : RValue)

mutual

/-- Flatten one selection into its occurrences, in traversal order: a
failing type assertion contributes nothing, a passing one contributes the
occurrences of its nested selections under the narrowed resolver. -/
def flatOcc (sel : Selection) (r : RValue) : Except String (List Occ) :=
  match sel with
  | .field al info ss => .ok [.fieldOcc al info ss r]
  | .typename al name assertions =>
      match typeOf name assertions r with
      | .error p => .error p
      | .ok tn => .ok [.typenameOcc al tn r]
  | .assertion mi ss =>
      match methodCall r mi with
      | .error p => .error p
      | .ok out => if out.2.1 then flatOccs ss out.1 else .ok []

/-- Flatten a selection list into its occurrences in traversal order. -/
def flatOccs (sels : List Selection) (r : RValue) : Except String (List Occ) :=
  match sels with
  | [] => .ok []
  | s :: rest =>
      match flatOcc s r with
      | .error p => .error p
      | .ok os1 =>
          match flatOccs rest r with
          | .error p => .error p
          | .ok os2 => .ok (os1 ++ os2)

end

/-- The claim's description of the merge step, on one occurrence: when
the alias is unseen among the registered entries, create a new entry
bound to the occurrence's resolver and field metadata and append it in
traversal order; first or later, append the occurrence's nested
selections to that single entry's accumulated selection list.  A typename
occurrence appends its own fixed-result entry without registering. -/
def specStep (fields : List FieldToExec) : Occ → List FieldToExec
  | .fieldOcc al info ss r =>
      if regSeen fields al then addSelsTo fields al ss
      else fields ++ [⟨al, info, ss, r, true⟩]
  | .typenameOcc al tn r => fields ++ [⟨al, typenameInfo tn, [], r, false⟩]

/-- The claim's description of merging: a single first-seen fold over the
flattened occurrence list. -/
def specMerge (fields : List FieldToExec) : List Occ → List FieldToExec
  | [] => fields
  | o :: os => specMerge (specStep fields o) os

/-- The aliases of the registered entries (the merge table keys), in
output order. -/
def regAliases : List FieldToExec → List String
  | [] => []
  | f :: rest => if f.registered then f.al :: regAliases rest else regAliases rest

/-! Concrete fixtures used by the witnesses and counterexamples below. -/

/-- A live context. -/
def wCtx : Ctx := ⟨none⟩

/-- A cancelled context, with Go's standard cancellation cause string. -/
def wCtxCancelled : Ctx := ⟨some "context canceled"⟩

/-- A field whose resolver method declares an error result. -/
def wInfoErr : SchemaFieldInfo :=
  { name := "b", typ := .scalar "String", methodIndex := 0,
    hasContext := false, hasArgs := false, hasSelected := false,
    hasError := true, async := false, fixedResult := none }

/-- A merged field whose resolver method reports the failure "boom". -/
def wFieldErr : FieldToExec :=
  ⟨"b", wInfoErr, [], .obj [(.strVal "", false, some "boom")], true⟩

/-- A plain non-null Int field. -/
def wInfoPlain : SchemaFieldInfo :=
  { name := "f", typ := .nonNull (.scalar "Int"), methodIndex := 0,
    hasContext := false, hasArgs := false, hasSelected := false,
    hasError := false, async := false, fixedResult := none }

/-- A non-null Int field with the fixed pre-computed result 5. -/
def wInfoFixed5 : SchemaFieldInfo :=
  { wInfoPlain with fixedResult := some (.scalarVal (some "5")) }

/-- An asynchronous-eligible copy of the fixed-result field. -/
def wInfoAsync5 : SchemaFieldInfo :=
  { wInfoFixed5 with async := true }

/-- A non-null object field whose value is a nil pointer: serializing it
is a non-null type-invariant violation. -/
def wInfoNilObj : SchemaFieldInfo :=
  { name := "a", typ := .nonNull (.object "O"), methodIndex := 0,
    hasContext := false, hasArgs := false, hasSelected := false,
    hasError := false, async := false, fixedResult := some (.ptr none) }

/-- Nested selections for the merge fixture. -/
def wSub1 : Selection := .field "n1" wInfoPlain []

/-- Second nested selection for the merge fixture. -/
def wSub2 : Selection := .field "n2" wInfoPlain []

/-- The resolver a passing type assertion narrows to. -/
def wNarrowed : RValue := .obj []

/-- A resolver whose method 0 is a narrowing predicate that succeeds. -/
def wC3Resolver : RValue := .obj [(wNarrowed, true, none)]

/-- A selection list with a duplicated alias and a passing assertion. -/
def wC3Sels : List Selection :=
  [.field "x" wInfoPlain [wSub1], .field "x" wInfoErr [wSub2],
   .assertion 0 [.field "y" wInfoPlain []]]

/-- The merge of wC3Sels: one entry per first-seen alias, nested
selections accumulated, the asserted subtree bound to the narrowed
resolver. -/
def wC3Fields : List FieldToExec :=
  [⟨"x", wInfoPlain, [wSub1, wSub2], wC3Resolver, true⟩,
   ⟨"y", wInfoPlain, [], wNarrowed, true⟩]

/-- A selection list containing an asynchronous field. -/
def wC4Sels : List Selection := [.field "a" wInfoAsync5 []]

/-- List elements for the concurrent-vs-sequential counterexample: the
first element is a nil pointer under a non-null element type. -/
def wC4Elems : List RValue := [.ptr none, .ptr (some (.obj []))]

/-- Panic-free list elements for the concurrent-vs-sequential witness. -/
def wC4GoodElems : List RValue := [.scalarVal (some "1"), .scalarVal (some "2")]

/-- A merged field with no fixed result, used for the cancellation
claims. -/
def wC7Field : FieldToExec := ⟨"a", wInfoErr, [], .obj [], true⟩

/-- The path of a root field with alias a. -/
def wPathA : PathSeg := .cons .nil (.fieldName "a")

/-- A resolver whose narrowing predicate at method 0 fails. -/
def wPredFalse : RValue := .obj [(.obj [], false, none)]

/-- Typename narrowing variants for the no-match fixture. -/
def wC9Assertions : List (String × Nat) := [("A", 0)]

/-- A merged field whose serialization panics: its fixed result is a nil
pointer under a non-null object type. -/
def wFieldNilObj : FieldToExec := ⟨"a", wInfoNilObj, [], .obj [], true⟩

/-! Lemmas about the selection merger. -/

/-- Folding occurrences over an appended list folds the parts in turn. -/
theorem specMerge_append (fields : List FieldToExec) (os1 os2 : List Occ) :
    specMerge fields (os1 ++ os2) = specMerge (specMerge fields os1) os2 := by
  induction os1 generalizing fields with
  | nil => simp [specMerge]
  | cons o os ih => simp [specMerge, ih]

mutual

/-- One loop iteration of the source merger equals the first-seen fold
over the occurrences of that one selection. -/
theorem collectOne_eq_spec (sel : Selection) (r : RValue)
    (fields : List FieldToExec) :
    collectOne sel r fields = (flatOcc sel r).map (fun os => specMerge fields os) := by
  match sel with
  | .field al info ss =>
      by_cases h : regSeen fields al = true <;>
        simp [collectOne, flatOcc, Except.map, specMerge, specStep, h]
  | .typename al name assertions =>
      cases h : typeOf name assertions r with
      | error p => simp [collectOne, flatOcc, h, Except.map]
      | ok tn => simp [collectOne, flatOcc, h, Except.map, specMerge, specStep]
  | .assertion mi ss =>
      cases h : methodCall r mi with
      | error p => simp [collectOne, flatOcc, h, Except.map]
      | ok out =>
          by_cases hb : out.2.1 = true
          · simpa [collectOne, flatOcc, h, hb] using collect_eq_spec ss out.1 fields
          · simp [collectOne, flatOcc, h, hb, Except.map, specMerge]

/-- The source merger equals the first-seen fold over the flattened
occurrence list: the stateful recursion through nested type assertions
shares one output list and one merge table. -/
theorem collect_eq_spec (sels : List Selection) (r : RValue)
    (fields : List FieldToExec) :
    collectFieldsToResolve sels r fields =
      (flatOccs sels r).map (fun os => specMerge fields os) := by
  match sels with
  | [] => simp [collectFieldsToResolve, flatOccs, Except.map, specMerge]
  | s :: rest =>
      rw [collectFieldsToResolve, flatOccs, collectOne_eq_spec s r fields]
      cases h1 : flatOcc s r with
      | error p => simp [Except.map]
      | ok os1 =>
          simp only [Except.map]
          rw [collect_eq_spec rest r (specMerge fields os1)]
          cases h2 : flatOccs rest r with
          | error p => simp [Except.map]
          | ok os2 => simp [Except.map, specMerge_append]

end

/-- Extending the nested selections of the registered entry for an alias
leaves every alias and registration flag unchanged. -/
theorem regAliases_addSelsTo (fields : List FieldToExec) (al : String)
    (extra : List Selection) :
    regAliases (addSelsTo fields al extra) = regAliases fields := by
  induction fields with
  | nil => rfl
  | cons f rest ih =>
      rw [addSelsTo]
      by_cases h : (f.registered && f.al == al) = true
      · have hr : f.registered = true := by revert h; cases f.registered <;> simp
        rw [if_pos h]
        simp [regAliases, hr]
      · rw [if_neg h]
        by_cases hr : f.registered = true <;> simp [regAliases, hr, ih]

/-- regAliases distributes over append. -/
theorem regAliases_append (a b : List FieldToExec) :
    regAliases (a ++ b) = regAliases a ++ regAliases b := by
  induction a with
  | nil => simp [regAliases]
  | cons f rest ih =>
      by_cases hr : f.registered = true <;> simp [regAliases, hr, ih]

/-- An alias the merge table has not seen is not among the registered
aliases. -/
theorem not_mem_regAliases_of_regSeen_false (fields : List FieldToExec)
    (al : String) (h : regSeen fields al = false) : al ∉ regAliases fields := by
  induction fields with
  | nil => simp [regAliases]
  | cons f rest ih =>
      rw [regSeen] at h
      rcases Bool.or_eq_false_iff.mp h with ⟨h1, h2⟩
      by_cases hr : f.registered = true
      · have hal : (f.al == al) = false := by
          cases hb : (f.al == al) with
          | false => rfl
          | true => simp [hr, hb] at h1
        simp only [regAliases, hr, if_true]
        intro hmem
        rcases List.mem_cons.mp hmem with h3 | h3
        · exact absurd (beq_iff_eq.mpr h3.symm) (by simp [hal])
        · exact ih h2 h3
      · simp only [regAliases, hr, if_false]
        exact ih h2

/-- One fold step preserves distinctness of the registered aliases. -/
theorem specStep_nodup (fields : List FieldToExec) (o : Occ)
    (h : (regAliases fields).Nodup) : (regAliases (specStep fields o)).Nodup := by
  cases o with
  | fieldOcc al info ss r =>
      by_cases hs : regSeen fields al = true
      · simpa [specStep, hs, regAliases_addSelsTo] using h
      · have hs' : regSeen fields al = false := by simpa using hs
        have hmem := not_mem_regAliases_of_regSeen_false fields al hs'
        simp [specStep, hs', regAliases_append, regAliases, List.nodup_append, h, hmem]
  | typenameOcc al tn r =>
      simpa [specStep, regAliases_append, regAliases] using h

/-- The first-seen fold preserves distinctness of the registered
aliases. -/
theorem specMerge_nodup (os : List Occ) :
    ∀ fields : List FieldToExec, (regAliases fields).Nodup →
      (regAliases (specMerge fields os)).Nodup := by
  induction os with
  | nil => intro fields h; simpa [specMerge] using h
  | cons o rest ih =>
      intro fields h
      rw [specMerge]
      exact ih _ (specStep_nodup fields o h)

/-- C3: for every selection list the merge step equals the first-seen
fold over the flattened occurrence list — entries appear in first-seen
alias order, only the first field selection with an alias creates the
output entry (binding the resolver and field metadata current at its
point) while every occurrence appends its nested selections to that one
entry's accumulated list (specStep) — and the registered aliases of any
produced output are pairwise distinct. -/
theorem c3_merge_first_seen (sels : List Selection) (r : RValue) :
    collectFieldsToResolve sels r [] =
      (flatOccs sels r).map (fun os => specMerge [] os)
    ∧ ∀ fields : List FieldToExec,
        collectFieldsToResolve sels r [] = .ok fields →
        (regAliases fields).Nodup := by
  refine ⟨collect_eq_spec sels r [], ?_⟩
  intro fields h
  rw [collect_eq_spec sels r []] at h
  cases h2 : flatOccs sels r with
  | error p => rw [h2] at h; simp [Except.map] at h
  | ok os =>
      rw [h2] at h
      simp only [Except.map, Except.ok.injEq] at h
      subst h
      exact specMerge_nodup os [] (by simp [regAliases])

/-- Witness for C3: the duplicated alias x merges into one entry holding
both nested selections, the asserted subtree lands in the same output
list under the narrowed resolver, and the registered aliases are
distinct. -/
theorem c3_witness :
    collectFieldsToResolve wC3Sels wC3Resolver [] = .ok wC3Fields
    ∧ (regAliases wC3Fields).Nodup :=
  ⟨by rfl, (c3_merge_first_seen wC3Sels wC3Resolver).2 wC3Fields (by rfl)⟩

/-- C8: a type-assertion selection whose predicate returns false drops
the whole subtree — the merge state is exactly the one of the remaining
selections, so no output and no error — and a passing predicate merges
the nested selections into the same output list and merge table using
the narrowed resolver returned by the predicate call. -/
theorem c8_type_assertion (mi : Nat) (ss rest : List Selection)
    (r v : RValue) (fields : List FieldToExec) (e : Option String) :
    (methodCall r mi = .ok (v, false, e) →
      collectFieldsToResolve (.assertion mi ss :: rest) r fields =
        collectFieldsToResolve rest r fields)
    ∧ (methodCall r mi = .ok (v, true, e) →
        collectFieldsToResolve (.assertion mi ss :: rest) r fields =
          match collectFieldsToResolve ss v fields with
          | .error p => .error p
          | .ok fields' => collectFieldsToResolve rest r fields') := by
  constructor
  · intro h
    simp [collectFieldsToResolve, collectOne, h]
  · intro h
    simp only [collectFieldsToResolve, collectOne, h]
    cases collectFieldsToResolve ss v fields <;> simp

/-- Witness for C8: a failing predicate leaves the merge untouched and a
passing one collects under the narrowed resolver. -/
theorem c8_witness :
    collectFieldsToResolve [.assertion 0 [.field "y" wInfoPlain []]] wPredFalse [] =
      .ok []
    ∧ collectFieldsToResolve [.assertion 0 [.field "y" wInfoPlain []]] wC3Resolver [] =
        .ok [⟨"y", wInfoPlain, [], wNarrowed, true⟩] := by
  constructor
  · rw [(c8_type_assertion 0 [.field "y" wInfoPlain []] [] wPredFalse (.obj [])
      [] none).1 (by rfl)]
    rfl
  · rw [(c8_type_assertion 0 [.field "y" wInfoPlain []] [] wC3Resolver wNarrowed
      [] none).2 (by rfl)]
    rfl

/-! Field execution and request-level claims. -/

/-- C1: a resolver method returning a non-nil error appends exactly one
QueryError, whose path is the field's location and whose original cause
is preserved; the field's slot becomes the literal null token with no
nested serialization (the equation holds for every nested selection list
and every field type); no panic escapes; and both the serial and the
concurrent field loops continue with the remaining sibling fields. -/
theorem c1_resolver_error (fuel : Nat) (ctx : Ctx) (f : FieldToExec)
    (parent : PathSeg) (rest : List FieldToExec) (first lim : Bool)
    (v : RValue) (b : Bool) (e : String)
    (hfix : f.info.fixedResult = none) (hctx : ctx.err = none)
    (hcall : methodCall f.resolver f.info.methodIndex = .ok (v, b, some e))
    (herr : f.info.hasError = true) :
    execFieldSelection (fuel + 1) ctx f (.cons parent (.fieldName f.al)) lim =
      ⟨"null", [⟨e, parent.toSlice ++ [.fieldName f.al], some e, none⟩], none⟩
    ∧ syncFields (fuel + 2) ctx parent (f :: rest) first =
        ⟨((if first then "" else ",") ++ jsonQuote f.al ++ ":") ++ "null" ++
            (syncFields (fuel + 1) ctx parent rest false).out,
          ⟨e, parent.toSlice ++ [.fieldName f.al], some e, none⟩ ::
            (syncFields (fuel + 1) ctx parent rest false).errs,
          (syncFields (fuel + 1) ctx parent rest false).pan⟩
    ∧ asyncExecFields (fuel + 2) ctx parent (f :: rest) =
        (f.al, ⟨"null", [⟨e, parent.toSlice ++ [.fieldName f.al], some e, none⟩], none⟩)
          :: asyncExecFields (fuel + 1) ctx parent rest := by
  have h1 : ∀ l : Bool,
      execFieldSelection (fuel + 1) ctx f (.cons parent (.fieldName f.al)) l =
        ⟨"null", [⟨e, parent.toSlice ++ [.fieldName f.al], some e, none⟩], none⟩ := by
    intro l
    simp [execFieldSelection, hfix, hctx, hcall, herr, PathSeg.toSlice]
  refine ⟨h1 lim, ?_, ?_⟩
  · simp only [syncFields, h1 false, List.singleton_append]
  · simp only [asyncExecFields, h1 true]

/-- Witness for C1: the failing field b yields the null token and one
pathed error carrying the cause, and its sibling in the serial loop still
executes. -/
theorem c1_witness :
    execFieldSelection 1 wCtx wFieldErr (.cons .nil (.fieldName "b")) false =
      ⟨"null", [⟨"boom", [.fieldName "b"], some "boom", none⟩], none⟩
    ∧ syncFields 2 wCtx .nil [wFieldErr] true =
        ⟨"\"b\":" ++ "null" ++ "", [⟨"boom", [.fieldName "b"], some "boom", none⟩], none⟩ := by
  have h := c1_resolver_error 0 wCtx wFieldErr .nil [] true false
    (.strVal "") false "boom" (by rfl) (by rfl) (by rfl) (by rfl)
  exact ⟨h.1, by rw [h.2.1]; decide⟩

/-- C2: whenever the context is cancelled by the end of the walk, Execute
discards all produced bytes and all collected errors and returns zero
bytes with exactly one QueryError whose message describes the
cancellation and which wraps the cancellation cause — for every schema,
operation and fuel, so no partial JSON is ever returned. -/
theorem c2_cancel_all_or_nothing (fuel : Nat) (ctx : Ctx) (s : Schema)
    (op : Operation) (ce : String) (hctx : ctx.err = some ce) :
    Execute fuel ctx s op = ("", [⟨ce, [], some ce, none⟩]) := by
  simp [Execute, hctx, Errorf]

/-- Witness for C2: a cancelled request returns no bytes and the single
cancellation error even though the walk produced output. -/
theorem c2_witness :
    Execute 6 wCtxCancelled ⟨.obj []⟩ ⟨.query, [.field "a" wInfoFixed5 []]⟩ =
      ("", [⟨"context canceled", [], some "context canceled", none⟩]) :=
  c2_cancel_all_or_nothing 6 wCtxCancelled ⟨.obj []⟩
    ⟨.query, [.field "a" wInfoFixed5 []]⟩ "context canceled" (by rfl)

/-- Counterexample for C5: a non-null Scalar whose resolver value is an
absent (nil) pointer serializes to the literal null token with no error
and no panic — the source's nil check exists only for composite types,
and json.Marshal encodes the nil pointer as null. -/
theorem c5_counterexample :
    execSelectionSet 2 wCtx [] (.nonNull (.scalar "Int")) .nil (.ptr none) =
      ⟨"null", [], none⟩ := by decide

/-- C5 as amended: only for non-null object, interface and union types
does an absent (nil pointer) resolver escalate as a panic instead of
serializing — and at a task boundary that panic becomes the generic
QueryError; for non-null scalar, enum and list types the absence check
is skipped. -/
theorem c5_nonnull_composite_panic (fuel : Nat) (ctx : Ctx)
    (sels : List Selection) (path : PathSeg) (nm : String) :
    execSelectionSet (fuel + 1) ctx sels (.nonNull (.object nm)) path (.ptr none) =
      ⟨"", [], some ("got nil for non-null " ++ jsonQuote nm)⟩
    ∧ execSelectionSet (fuel + 1) ctx sels (.nonNull (.iface nm)) path (.ptr none) =
        ⟨"", [], some ("got nil for non-null " ++ jsonQuote nm)⟩
    ∧ execSelectionSet (fuel + 1) ctx sels (.nonNull (.union nm)) path (.ptr none) =
        ⟨"", [], some ("got nil for non-null " ++ jsonQuote nm)⟩
    ∧ recoverTask ⟨"", [], some ("got nil for non-null " ++ jsonQuote nm)⟩ =
        ⟨"", [panicError ("got nil for non-null " ++ jsonQuote nm)], none⟩ := by
  refine ⟨?_, ?_, ?_, ?_⟩ <;>
    simp [execSelectionSet, unwrapNonNull, RValue.isNilPtr, GType.displayName,
      recoverTask]

/-- Counterexample for C7: a field executed under an already-cancelled
context fails with a QueryError that carries neither the field's path nor
the wrapped cancellation cause — unlike the resolver-error case, the
source attaches no path and no original error here. -/
theorem c7_counterexample :
    execFieldSelection 1 wCtxCancelled wC7Field wPathA false =
      ⟨"null", [⟨"context canceled", [], none, none⟩], none⟩
    ∧ wPathA.toSlice = [PathElem.fieldName "a"]
    ∧ (⟨"context canceled", [], none, none⟩ : QueryError).path ≠ wPathA.toSlice
    ∧ (⟨"context canceled", [], none, none⟩ : QueryError).originalError ≠
        some "context canceled" := by decide

/-- C7 as amended: a field without a fixed result under a cancelled
context fails without invoking the resolver (the equation holds for every
resolver and method table), appending exactly one QueryError whose
message describes the cancellation but which carries an empty path and no
wrapped cause; the field's slot becomes the null token and no panic
escapes, so siblings are unaffected. -/
theorem c7_cancelled_field (fuel : Nat) (ctx : Ctx) (f : FieldToExec)
    (path : PathSeg) (lim : Bool) (ce : String)
    (hfix : f.info.fixedResult = none) (hctx : ctx.err = some ce) :
    execFieldSelection (fuel + 1) ctx f path lim =
      ⟨"null", [Errorf ce], none⟩ := by
  simp [execFieldSelection, hfix, hctx]

/-- Witness for C7 as amended. -/
theorem c7_witness :
    execFieldSelection 1 wCtxCancelled wC7Field wPathA false =
      ⟨"null", [Errorf "context canceled"], none⟩ :=
  c7_cancelled_field 0 wCtxCancelled wC7Field wPathA false "context canceled"
    (by rfl) (by rfl)

/-- Counterexample for C6: in a serial selection set, a panic raised
during serialization of one field (a non-null violation) is not caught at
the field boundary: it propagates to the top-level request boundary,
aborting the sibling field b entirely, leaving unbalanced partial bytes
in the returned output, and producing the generic pathless internal
server error rather than that field's QueryError. -/
theorem c6_counterexample :
    Execute 10 wCtx ⟨.obj []⟩
      ⟨.query, [.field "a" wInfoNilObj [], .field "b" wInfoFixed5 []]⟩ =
      ("\x7b\"a\":",
       [⟨"internal server error", [], none, some "got nil for non-null \"O\""⟩]) := by
  decide

/-- C6 as amended: a panic raised during the resolver invocation phase is
caught at the field boundary in both modes, becoming that field's pathed
QueryError; a panic raised during serialization is caught at the nearest
goroutine boundary — in a concurrent selection set the field's own task
catches it (the sibling tasks and assembly continue, and the recover
appends the generic pathless error) — while in a serial selection set it
propagates out of the field loop, aborting the remaining sibling
fields. -/
theorem c6_panic_boundaries (fuel : Nat) (ctx : Ctx) (f : FieldToExec)
    (parent : PathSeg) (rest : List FieldToExec) (first lim : Bool)
    (p : String) :
    (f.info.fixedResult = none → ctx.err = none →
      methodCall f.resolver f.info.methodIndex = .error p →
      execFieldSelection (fuel + 1) ctx f (.cons parent (.fieldName f.al)) lim =
        ⟨"null",
         [{ panicError p with path := parent.toSlice ++ [.fieldName f.al] }],
         none⟩)
    ∧ ((execFieldSelection (fuel + 1) ctx f (.cons parent (.fieldName f.al)) true).pan
          = some p →
        asyncExecFields (fuel + 2) ctx parent (f :: rest) =
          (f.al, execFieldSelection (fuel + 1) ctx f
            (.cons parent (.fieldName f.al)) true)
            :: asyncExecFields (fuel + 1) ctx parent rest
        ∧ recoverTask (execFieldSelection (fuel + 1) ctx f
              (.cons parent (.fieldName f.al)) true) =
            ⟨(execFieldSelection (fuel + 1) ctx f
                (.cons parent (.fieldName f.al)) true).out,
             (execFieldSelection (fuel + 1) ctx f
                (.cons parent (.fieldName f.al)) true).errs ++ [panicError p],
             none⟩)
    ∧ ((execFieldSelection (fuel + 1) ctx f (.cons parent (.fieldName f.al)) false).pan
          = some p →
        syncFields (fuel + 2) ctx parent (f :: rest) first =
          ⟨((if first then "" else ",") ++ jsonQuote f.al ++ ":") ++
              (execFieldSelection (fuel + 1) ctx f
                (.cons parent (.fieldName f.al)) false).out,
           (execFieldSelection (fuel + 1) ctx f
              (.cons parent (.fieldName f.al)) false).errs,
           some p⟩) := by
  refine ⟨?_, ?_, ?_⟩
  · intro h1 h2 h3
    simp [execFieldSelection, h1, h2, h3, PathSeg.toSlice]
  · intro hp
    exact ⟨by simp only [asyncExecFields], by simp [recoverTask, hp]⟩
  · intro hp
    simp [syncFields, hp]

/-- Witness for C6 as amended: an invocation-phase reflect panic becomes
the field's own pathed error; a serialization panic in a concurrent task
is recovered at that field's boundary into the generic error while the
assembly continues; the same panic in the serial loop escapes with the
partial bytes. -/
theorem c6_witness :
    execFieldSelection 1 wCtx wC7Field (.cons .nil (.fieldName "a")) false =
      ⟨"null",
       [⟨"internal server error", [.fieldName "a"], none,
         some "reflect: method index out of range"⟩], none⟩
    ∧ asyncExecFields 3 wCtx .nil [wFieldNilObj] =
        [("a", ⟨"", [], some "got nil for non-null \"O\""⟩)]
    ∧ recoverTask (execFieldSelection 2 wCtx wFieldNilObj
          (.cons .nil (.fieldName "a")) true) =
        ⟨"", [⟨"internal server error", [], none,
          some "got nil for non-null \"O\""⟩], none⟩
    ∧ syncFields 3 wCtx .nil [wFieldNilObj] true =
        ⟨"\"a\":", [], some "got nil for non-null \"O\""⟩ := by
  have h7 := c6_panic_boundaries 0 wCtx wC7Field PathSeg.nil [] true false
    "reflect: method index out of range"
  have h := c6_panic_boundaries 1 wCtx wFieldNilObj PathSeg.nil [] true true
    "got nil for non-null \"O\""
  refine ⟨?_, ?_, ?_, ?_⟩
  · exact (h7.1 (by rfl) (by rfl) (by rfl)).trans (by decide)
  · exact ((h.2.1 (by decide)).1).trans (by decide)
  · exact ((h.2.1 (by decide)).2).trans (by decide)
  · exact (h.2.2 (by decide)).trans (by decide)

/-- Helper for C9: when every narrowing predicate fails on the value, the
variant scan returns the empty string. -/
theorem firstAssertion_all_false (assertions : List (String × Nat)) (r : RValue)
    (h : ∀ a ∈ assertions, ∃ v e, methodCall r a.2 = .ok (v, false, e)) :
    firstAssertion assertions r = .ok "" := by
  induction assertions with
  | nil => rfl
  | cons a rest ih =>
      obtain ⟨v, e, hcall⟩ := h a (by simp)
      cases a with
      | mk nm mi =>
          rw [firstAssertion, hcall]
          simpa using ih (fun x hx => h x (by simp [hx]))

/-- C9: a typename meta-selection on a type with narrowing variants whose
predicates all fail computes the empty string as the type name; the merge
step emits the corresponding fixed-result entry, and executing that entry
serializes the empty string as the field's value. -/
theorem c9_typename_no_match (tfName al : String)
    (assertions : List (String × Nat)) (r : RValue)
    (hne : assertions ≠ [])
    (h : ∀ a ∈ assertions, ∃ v e, methodCall r a.2 = .ok (v, false, e)) :
    typeOf tfName assertions r = .ok ""
    ∧ collectFieldsToResolve [.typename al tfName assertions] r [] =
        .ok [⟨al, typenameInfo "", [], r, false⟩]
    ∧ ∀ (fuel : Nat) (ctx : Ctx) (path : PathSeg) (lim : Bool)
        (sels : List Selection) (rv : RValue),
        execFieldSelection (fuel + 3) ctx ⟨al, typenameInfo "", sels, rv, false⟩
            path lim =
          ⟨jsonQuote "", [], none⟩ := by
  have hty : typeOf tfName assertions r = .ok "" := by
    cases assertions with
    | nil => exact absurd rfl hne
    | cons a rest =>
        rw [typeOf, if_neg (by simp)]
        exact firstAssertion_all_false _ r h
  refine ⟨hty, ?_, ?_⟩
  · simp [collectFieldsToResolve, collectOne, hty]
  · intro fuel ctx path lim sels rv
    simp [execFieldSelection, typenameInfo, MetaFieldTypename, execSelectionSet,
      unwrapNonNull, execBareType, RValue.jsonMarshal]

/-- Witness for C9: one failing variant yields the empty type name, the
fixed-result entry, and the serialized empty string. -/
theorem c9_witness :
    typeOf "U" wC9Assertions wPredFalse = .ok ""
    ∧ collectFieldsToResolve [.typename "t" "U" wC9Assertions] wPredFalse [] =
        .ok [⟨"t", typenameInfo "", [], wPredFalse, false⟩]
    ∧ execFieldSelection 3 wCtx ⟨"t", typenameInfo "", [], wPredFalse, false⟩
        .nil false = ⟨jsonQuote "", [], none⟩ := by
  have h := c9_typename_no_match "U" "t" wC9Assertions wPredFalse (by decide)
    (by intro a ha
        simp only [wC9Assertions, List.mem_singleton] at ha
        subst ha
        exact ⟨.obj [], none, by rfl⟩)
  exact ⟨h.1, h.2.1, h.2.2 0 wCtx .nil false [] wPredFalse⟩

/-- Helper for C10: when no panic escapes the serial field loop, its
bytes are a comma-separated sequence of entries. -/
theorem syncFields_out_shape (ctx : Ctx) (path : PathSeg) :
    ∀ (fields : List FieldToExec) (fuel : Nat) (first : Bool),
      (syncFields fuel ctx path fields first).pan = none →
      ∃ parts : List String,
        (syncFields fuel ctx path fields first).out =
          (if first then commaJoin parts else commaJoinRest parts) := by
  intro fields
  induction fields with
  | nil =>
      intro fuel first h
      exact ⟨[], by cases first <;> simp [syncFields, commaJoin, commaJoinRest]⟩
  | cons f rest ih =>
      intro fuel first h
      match fuel with
      | 0 => simp [syncFields] at h
      | Nat.succ n =>
          simp only [syncFields] at h ⊢
          cases hp : (execFieldSelection n ctx f (.cons path (.fieldName f.al)) false).pan with
          | some p => simp [hp] at h
          | none =>
              simp only [hp] at h ⊢
              obtain ⟨parts, hparts⟩ := ih n false h
              refine ⟨(jsonQuote f.al ++ ":" ++
                (execFieldSelection n ctx f (.cons path (.fieldName f.al)) false).out)
                :: parts, ?_⟩
              cases first <;>
                simp [commaJoin, commaJoinRest, hparts, String.append_assoc]

/-- Counterexample for C10: a serialization panic in a serial selection
set escapes execSelections after the opening brace was written but before
the closing brace — the produced bytes are not wrapped in a brace
pair. -/
theorem c10_counterexample :
    execSelections 4 wCtx [.field "a" wInfoNilObj []] .nil (.obj []) false =
      ⟨"\x7b\"a\":", [], some "got nil for non-null \"O\""⟩ := by decide

/-- C10 as amended: a selection set that merges to zero executable fields
serializes to the two-byte object token (never null or empty bytes), and
whenever no panic escapes the selection-set execution its bytes are
exactly one opening brace, comma-separated entries, and one closing
brace; when a panic escapes in serial mode the closing brace is
missing. -/
theorem c10_braces (fuel : Nat) (ctx : Ctx) (sels : List Selection)
    (path : PathSeg) (r : RValue) (serially : Bool) :
    (collectFieldsToResolve sels r [] = .ok [] →
      execSelections (fuel + 1) ctx sels path r serially = ⟨"\x7b\x7d", [], none⟩)
    ∧ ((execSelections (fuel + 1) ctx sels path r serially).pan = none →
        ∃ parts : List String,
          (execSelections (fuel + 1) ctx sels path r serially).out =
            "\x7b" ++ commaJoin parts ++ "\x7d") := by
  constructor
  · intro h
    rw [show fuel + 1 = Nat.succ fuel from rfl]
    simp only [execSelections, h]
    by_cases hb : (!serially && HasAsyncSel sels) = true
    · rw [if_pos hb]
      have ha : asyncExecFields fuel ctx path [] = [] := by simp [asyncExecFields]
      rw [ha]
      rfl
    · rw [if_neg hb]
      have hs : syncFields fuel ctx path [] true = ⟨"", [], none⟩ := by
        simp [syncFields]
      rw [hs]
      rfl
  · intro h
    rw [show fuel + 1 = Nat.succ fuel from rfl] at h ⊢
    simp only [execSelections] at h ⊢
    cases hcol : collectFieldsToResolve sels r [] with
    | error p => simp [hcol] at h
    | ok fields =>
        simp only [hcol] at h ⊢
        by_cases hb : (!serially && HasAsyncSel sels) = true
        · rw [if_pos hb]
          exact ⟨_, rfl⟩
        · rw [if_neg hb] at h ⊢
          cases hp : (syncFields fuel ctx path fields true).pan with
          | some p => simp [hp] at h
          | none =>
              simp only [hp]
              obtain ⟨parts, hparts⟩ :=
                syncFields_out_shape ctx path fields fuel true hp
              rw [if_pos rfl] at hparts
              exact ⟨parts, by rw [hparts, String.append_assoc]⟩

/-- Witness for C10 as amended: an empty root selection serializes to the
object token, and a panic-free execution is brace-wrapped. -/
theorem c10_witness :
    execSelections 1 wCtx [] .nil (.obj []) false = ⟨"\x7b\x7d", [], none⟩
    ∧ ∃ parts : List String,
        (execSelections 6 wCtx [.field "a" wInfoFixed5 []] .nil (.obj []) false).out =
          "\x7b" ++ commaJoin parts ++ "\x7d" :=
  ⟨(c10_braces 0 wCtx [] .nil (.obj []) false).1 (by rfl),
   (c10_braces 5 wCtx [.field "a" wInfoFixed5 []] .nil (.obj []) false).2 (by decide)⟩

/-- A recover boundary is the identity on a task that did not panic. -/
theorem recoverTask_of_pan_none (r : ERes) (h : r.pan = none) :
    recoverTask r = r := by
  unfold recoverTask
  rw [h]

/-- Recover boundaries are invisible on a task list without panics. -/
theorem map_recoverTask_of_no_pan (rs : List ERes)
    (h : ∀ r ∈ rs, r.pan = none) : rs.map recoverTask = rs := by
  induction rs with
  | nil => rfl
  | cons a rest ih =>
      rw [List.map_cons, recoverTask_of_pan_none a (h a (by simp)),
        ih (fun r hr => h r (by simp [hr]))]

/-- Helper for C4: when no element task panics, the sequential element
loop produces exactly the concatenation, in index order, of the bytes and
errors the concurrent element tasks produce. -/
theorem seqElems_eq_asyncElems (ctx : Ctx) (sels : List Selection)
    (ofType : GType) (path : PathSeg) :
    ∀ (es : List RValue) (fuel i : Nat) (first : Bool),
      (∀ r ∈ asyncElems fuel ctx sels ofType path es i, r.pan = none) →
      seqElems fuel ctx sels ofType path es i first =
        ⟨(if first then commaJoin else commaJoinRest)
            ((asyncElems fuel ctx sels ofType path es i).map ERes.out),
         ((asyncElems fuel ctx sels ofType path es i).map ERes.errs).flatten,
         none⟩ := by
  intro es
  induction es with
  | nil =>
      intro fuel i first h
      have ha : asyncElems fuel ctx sels ofType path [] i = [] := by
        simp [asyncElems]
      rw [ha]
      cases first <;> simp [seqElems, commaJoin, commaJoinRest]
  | cons e rest ih =>
      intro fuel i first h
      match fuel with
      | 0 =>
          exfalso
          have hmem : (⟨"", [], some oofPanic⟩ : ERes) ∈
              asyncElems 0 ctx sels ofType path (e :: rest) i := by
            simp [asyncElems]
          simpa using h _ hmem
      | Nat.succ n =>
          have ha : asyncElems (Nat.succ n) ctx sels ofType path (e :: rest) i =
              execSelectionSet n ctx sels ofType (.cons path (.index i)) e ::
                asyncElems n ctx sels ofType path rest (i + 1) := by
            simp [asyncElems]
          rw [ha] at h ⊢
          have h0 : (execSelectionSet n ctx sels ofType (.cons path (.index i)) e).pan
              = none := h _ (by simp)
          have hrest : ∀ r ∈ asyncElems n ctx sels ofType path rest (i + 1),
              r.pan = none := fun r hr => h r (by simp [hr])
          simp only [seqElems, h0]
          rw [ih n (i + 1) false hrest]
          cases first <;>
            simp [commaJoin, commaJoinRest, String.append_assoc]

/-- Helper for C4: when no element task panics there is exactly one task
result per source element. -/
theorem asyncElems_length (ctx : Ctx) (sels : List Selection) (ofType : GType)
    (path : PathSeg) :
    ∀ (es : List RValue) (fuel i : Nat),
      (∀ r ∈ asyncElems fuel ctx sels ofType path es i, r.pan = none) →
      (asyncElems fuel ctx sels ofType path es i).length = es.length := by
  intro es
  induction es with
  | nil => intro fuel i h; simp [asyncElems]
  | cons e rest ih =>
      intro fuel i h
      match fuel with
      | 0 =>
          exfalso
          have hmem : (⟨"", [], some oofPanic⟩ : ERes) ∈
              asyncElems 0 ctx sels ofType path (e :: rest) i := by
            simp [asyncElems]
          simpa using h _ hmem
      | Nat.succ n =>
          have ha : asyncElems (Nat.succ n) ctx sels ofType path (e :: rest) i =
              execSelectionSet n ctx sels ofType (.cons path (.index i)) e ::
                asyncElems n ctx sels ofType path rest (i + 1) := by
            simp [asyncElems]
          rw [ha] at h ⊢
          have hrest : ∀ r ∈ asyncElems n ctx sels ofType path rest (i + 1),
              r.pan = none := fun r hr => h r (by simp [hr])
          simp [ih n (i + 1) hrest]

/-- Counterexample for C4: a list whose first element's serialization
panics (a nil pointer under a non-null element type).  The concurrent
branch recovers per element and still emits one (empty) slot for the
panicked element plus the full second element; strictly sequential
serialization of the same inputs aborts after the opening bracket.  The
two byte outputs differ, and the concurrent output does not have one
well-formed entry per element. -/
theorem c4_counterexample :
    (execSelectionSet 12 wCtx wC4Sels (.nonNull (.list (.nonNull (.object "O"))))
        .nil (.slice wC4Elems)).out ≠
      (seqListSerialize 10 wCtx wC4Sels (.nonNull (.object "O")) .nil wC4Elems).out
    ∧ execSelectionSet 12 wCtx wC4Sels (.nonNull (.list (.nonNull (.object "O"))))
        .nil (.slice wC4Elems) =
        ⟨"[,\x7b\"a\":5\x7d]",
         [⟨"internal server error", [], none, some "got nil for non-null \"O\""⟩],
         none⟩
    ∧ seqListSerialize 10 wCtx wC4Sels (.nonNull (.object "O")) .nil wC4Elems =
        ⟨"[", [], some "got nil for non-null \"O\""⟩ := by decide

/-- C4 as amended: for a list under an asynchronous nested selection,
whenever no element task panics the concurrent execution produces bytes
identical to strictly sequential serialization of the same inputs, with
exactly one array entry per source element in source index order. -/
theorem c4_async_matches_sequential (fuel : Nat) (ctx : Ctx)
    (sels : List Selection) (ofType : GType) (path : PathSeg) (es : List RValue)
    (hasync : HasAsyncSel sels = true)
    (hnopan : ∀ r ∈ asyncElems fuel ctx sels ofType path es 0, r.pan = none) :
    execSelectionSet (fuel + 2) ctx sels (.nonNull (.list ofType)) path
        (.slice es) =
      seqListSerialize fuel ctx sels ofType path es
    ∧ (asyncElems fuel ctx sels ofType path es 0).length = es.length
    ∧ seqListSerialize fuel ctx sels ofType path es =
        ⟨"[" ++ commaJoin
            ((asyncElems fuel ctx sels ofType path es 0).map ERes.out) ++ "]",
         ((asyncElems fuel ctx sels ofType path es 0).map ERes.errs).flatten,
         none⟩ := by
  have hseq := seqElems_eq_asyncElems ctx sels ofType path es fuel 0 true hnopan
  have h3 : seqListSerialize fuel ctx sels ofType path es =
      ⟨"[" ++ commaJoin
          ((asyncElems fuel ctx sels ofType path es 0).map ERes.out) ++ "]",
       ((asyncElems fuel ctx sels ofType path es 0).map ERes.errs).flatten,
       none⟩ := by
    simp only [seqListSerialize, hseq]
    simp
  have h1 : execSelectionSet (fuel + 2) ctx sels (.nonNull (.list ofType)) path
      (.slice es) =
      ⟨"[" ++ commaJoin
          ((asyncElems fuel ctx sels ofType path es 0).map ERes.out) ++ "]",
       ((asyncElems fuel ctx sels ofType path es 0).map ERes.errs).flatten,
       none⟩ := by
    rw [show fuel + 2 = Nat.succ (Nat.succ fuel) from rfl]
    simp only [execSelectionSet, unwrapNonNull, execBareType, hasync, if_true,
      map_recoverTask_of_no_pan _ hnopan]
  exact ⟨h1.trans h3.symm,
    asyncElems_length ctx sels ofType path es fuel 0 hnopan, h3⟩

/-- Witness for C4 as amended: a two-element list of scalars under an
asynchronous selection; no element panics and the concurrent bytes equal
the sequential bytes. -/
theorem c4_witness :
    ((asyncElems 5 wCtx wC4Sels (.nonNull (.scalar "Int")) .nil wC4GoodElems 0).map
        ERes.pan) = [none, none]
    ∧ execSelectionSet 7 wCtx wC4Sels (.nonNull (.list (.nonNull (.scalar "Int"))))
        .nil (.slice wC4GoodElems) =
      seqListSerialize 5 wCtx wC4Sels (.nonNull (.scalar "Int")) .nil wC4GoodElems :=
  ⟨by decide,
   (c4_async_matches_sequential 5 wCtx wC4Sels (.nonNull (.scalar "Int")) .nil
      wC4GoodElems (by decide) (by decide)).1⟩

end Gql
